import Mathlib

/-!
Shallow embedding of the gddoexp library (archive / fast-fork decisions for
GoDoc packages, backed by the Github API) and proofs about its behaviour.

Conventions of the embedding:
* Instants and durations (Go `time.Time`, `time.Duration`) are integers in
  nanoseconds, matching Go duration constants (`time.Hour` etc.).
* The impure environment (the global `HTTPClient`, the `IsCacheResponse`
  predicate, and the number of issued requests) is an explicit `World` value
  threaded through every function; each `HTTPClient.Get` consumes one entry of
  the world, increments the request counter and appends the requested URL to a
  log.
* A Go run-time panic (the out-of-range slice in `normalizePath`) is modelled
  by the `GoResult.panicked` constructor.
-/

namespace Gddoexp

/-- Go `time.Second` in nanoseconds. -/
def Second : Int := 1000000000

/-- Go `time.Minute` in nanoseconds. -/
def Minute : Int := 60 * Second

/-- Go `time.Hour` in nanoseconds. -/
def Hour : Int := 60 * Minute

/-- One day (24 hours), used to state the 730/729-day boundary claims. -/
def Day : Int := 24 * Hour

/-- `unused` from gddoexp.go: the age after which an unmodified project is
considered unused (`2 * 365 * 24 * time.Hour`). -/
def unused : Int := 2 * 365 * 24 * Hour

/-- `commitsLimit` from gddoexp.go: maximum number of commits for a fast fork. -/
def commitsLimit : Int := 2

/-- `commitsPeriod` from gddoexp.go: window after the fork creation date
(`7 * 24 * time.Hour`). -/
def commitsPeriod : Int := 7 * 24 * Hour

/-- `agents` from gddoexp.go: number of concurrent worker goroutines. -/
def agents : Int := 4

/-- Error codes from error.go. -/
inductive ErrorCode where
  | ErrorCodeRetrieveImportCounts
  | ErrorCodeNonGithub
  | ErrorCodeGithubFetch
  | ErrorCodeGithubForbidden
  | ErrorCodeGithubNotFound
  | ErrorCodeGithubStatusCode
  | ErrorCodeGithubParse
deriving DecidableEq

/-- The `Error` struct from error.go; the wrapped low-level cause is modelled
by its message. -/
structure Error where
  Path : String
  Code : ErrorCode
  Details : Option String
deriving DecidableEq

/-- `NewError` from error.go. -/
def NewError (path : String) (code : ErrorCode) (details : Option String) : Error :=
  ⟨path, code, details⟩

/-- `GithubAuth` from github.go. -/
structure GithubAuth where
  ID : String
  Secret : String

/-- The `String` method of `GithubAuth`: the query-string form of the
credentials. -/
def GithubAuth.queryString (g : GithubAuth) : String :=
  "client_id=" ++ g.ID ++ "&client_secret=" ++ g.Secret

/-- `githubRepository` from github.go (all JSON fields of the decoded
repository object). -/
structure GithubRepository where
  CreatedAt : Int
  Fork : Bool
  ForksCount : Int
  NetworkCount : Int
  StargazersCount : Int
  UpdatedAt : Int
deriving DecidableEq

/-- Go zero value of `githubRepository`, left in place when a fetch fails. -/
def GithubRepository.zero : GithubRepository := ⟨0, false, 0, 0, 0, 0⟩

/-- The nested `commit.author` JSON object of a commit record. -/
structure CommitAuthor where
  Date : Int
deriving DecidableEq

/-- The nested `commit` JSON object of a commit record. -/
structure CommitData where
  Author : CommitAuthor
deriving DecidableEq

/-- One element of `githubCommits` from github.go. -/
structure CommitEntry where
  Commit : CommitData
deriving DecidableEq

/-- `githubCommits` from github.go. -/
abbrev GithubCommits := List CommitEntry

/-- The decoded JSON body of an HTTP response: a repository object, a commit
array, or text that fails to decode into the requested shape. -/
inductive BodyVal where
  | repo (r : GithubRepository)
  | commits (cs : GithubCommits)
  | malformed
deriving DecidableEq

/-- An HTTP response as far as the library observes it: status code, headers
and (decoded) body. -/
structure HttpRsp where
  statusCode : Nat
  header : List (String × String)
  body : BodyVal
deriving DecidableEq

/-- Outcome of one `HTTPClient.Get`: a transport failure or a response. -/
inductive GetOutcome where
  | failure (msg : String)
  | success (rsp : HttpRsp)
deriving DecidableEq

/-- The impure environment: the HTTP client (the outcome of the i-th request
to a given URL), the number of requests already issued, the log of requested
URLs, and the optional `IsCacheResponse` predicate. -/
structure World where
  get : Nat → String → GetOutcome
  calls : Nat
  log : List String
  isCacheResponse : Option (HttpRsp → Bool)

/-- The world after one `HTTPClient.Get` of `url`. -/
def advanceW (w : World) (url : String) : World :=
  ⟨w.get, w.calls + 1, w.log ++ [url], w.isCacheResponse⟩

/-- Result of a Go computation that can panic at run time. -/
inductive GoResult (α : Type) where
  | panicked
  | value (a : α)
deriving DecidableEq

/-- Forget the final world of a stateful result. -/
def dropWorld : GoResult (α × World) → GoResult α
  | .panicked => .panicked
  | .value (a, _) => .value a

/-- Extract a value from a `GoResult`, with a default for the panic case. -/
def GoResult.getD : GoResult α → α → α
  | .panicked, d => d
  | .value a, _ => a

/-- Splitting a character list at a separator character, the semantics of Go
`strings.Split(s, sep)` for a one-character separator: the result is never
empty, and empty fields are kept. -/
def splitOnChar (c : Char) : List Char → List (List Char)
  | [] => [[]]
  | a :: rest =>
    match splitOnChar c rest with
    | [] => [[]]
    | h :: t => if a = c then [] :: h :: t else (a :: h) :: t

/-- Go `strings.Split(s, "/")`. -/
def splitSlash (s : String) : List String :=
  (splitOnChar '/' s.data).map String.mk

/-- The hosting prefix checked by `normalizePath`. -/
def githubHost : String := "github.com/"

/-- Go `strings.TrimPrefix(path, "github.com/")` under the assumption that
the prefix is present: drop its 11 characters. -/
def stripHosting (path : String) : String :=
  String.mk (path.data.drop githubHost.length)

/-- Result of `normalizePath`: the Go function can panic (slice bound out of
range), return an error, or return the normalized path. -/
inductive NormalizeResult where
  | panicked
  | errored (e : Error)
  | ok (s : String)
deriving DecidableEq

/-- `normalizePath` from github.go.  The source computes
`strings.Join(strings.Split(strings.TrimPrefix(path, "github.com/"), "/")[:2], "/")`;
the slice expression `[:2]` panics when the split yields fewer than two
segments (`cap = len < 2`). -/
def normalizePath (path : String) : NormalizeResult :=
  if githubHost.data.isPrefixOf path.data then
    match splitSlash (stripHosting path) with
    | a :: b :: _ => .ok (a ++ "/" ++ b)
    | _ => .panicked
  else
    .errored (NewError path .ErrorCodeNonGithub none)

/-- The output of `doGithub`: the decoded object (the caller's zero value on
failure, since Go leaves `obj` untouched then), the cache flag and the error. -/
structure DoOut (α : Type) where
  obj : α
  cache : Bool
  err : Option Error

/-- The classification part of `doGithub` from github.go: given the outcome of
`HTTPClient.Get`, the configured `IsCacheResponse` predicate and a decoder,
produce the object, the cache flag and the error, following the `switch` on
the status code (200 decodes, 403 / 404 / other are errors with cache=false). -/
def classifyGithub (path : String) (o : GetOutcome)
    (isCache : Option (HttpRsp → Bool)) (dec : BodyVal → Except String α)
    (dflt : α) : DoOut α :=
  match o with
  | .failure msg => ⟨dflt, false, some (NewError path .ErrorCodeGithubFetch (some msg))⟩
  | .success rsp =>
    if rsp.statusCode = 200 then
      match dec rsp.body with
      | .error msg => ⟨dflt, false, some (NewError path .ErrorCodeGithubParse (some msg))⟩
      | .ok obj =>
        ⟨obj,
         (match isCache with
          | none => false
          | some f => f rsp),
         none⟩
    else if rsp.statusCode = 403 then
      ⟨dflt, false, some (NewError path .ErrorCodeGithubForbidden none)⟩
    else if rsp.statusCode = 404 then
      ⟨dflt, false, some (NewError path .ErrorCodeGithubNotFound none)⟩
    else
      ⟨dflt, false, some (NewError path .ErrorCodeGithubStatusCode none)⟩

/-- `doGithub` from github.go: issue one `HTTPClient.Get` (consuming one
request of the world) and classify the outcome. -/
def doGithub (path url : String) (dec : BodyVal → Except String α) (dflt : α)
    (w : World) : DoOut α × World :=
  (classifyGithub path (w.get w.calls url) w.isCacheResponse dec dflt,
   advanceW w url)

/-- The JSON decoder targeting `githubRepository`. -/
def decRepo : BodyVal → Except String GithubRepository
  | .repo r => .ok r
  | _ => .error "json: cannot unmarshal into githubRepository"

/-- The JSON decoder targeting `githubCommits`. -/
def decCommits : BodyVal → Except String GithubCommits
  | .commits cs => .ok cs
  | _ => .error "json: cannot unmarshal into githubCommits"

/-- URL built by `getGithubRepository` for a normalized path. -/
def repoUrl (np : String) (auth : Option GithubAuth) : String :=
  "https://api.github.com/repos/" ++ np ++
    (match auth with
     | none => ""
     | some a => "?" ++ a.queryString)

/-- URL built by `getCommits` for a normalized path. -/
def commitsUrl (np : String) (auth : Option GithubAuth) : String :=
  "https://api.github.com/repos/" ++ np ++ "/commits" ++
    (match auth with
     | none => ""
     | some a => "?" ++ a.queryString)

/-- The Go triple returned by `getGithubRepository`. -/
structure RepoFetch where
  repository : GithubRepository
  cache : Bool
  err : Option Error

/-- `getGithubRepository` from github.go.  A failing `normalizePath` returns
its error with cache=true (no request was performed); otherwise one request is
issued and classified. -/
def getGithubRepository (path : String) (auth : Option GithubAuth) (w : World) :
    GoResult (RepoFetch × World) :=
  match normalizePath path with
  | .panicked => .panicked
  | .errored e => .value (⟨GithubRepository.zero, true, some e⟩, w)
  | .ok np =>
    let out := doGithub path (repoUrl np auth) decRepo GithubRepository.zero w
    .value (⟨out.1.obj, out.1.cache, out.1.err⟩, out.2)

/-- The Go triple returned by `getCommits`. -/
structure CommitsFetch where
  commits : GithubCommits
  cache : Bool
  err : Option Error

/-- `getCommits` from github.go.  The error of `normalizePath` is ignored by
the source (`normalizedPath, _ := normalizePath(path)`), so on a non-Github
path the request is issued with the zero-value normalized path. -/
def getCommits (path : String) (auth : Option GithubAuth) (w : World) :
    GoResult (CommitsFetch × World) :=
  match normalizePath path with
  | .panicked => .panicked
  | .errored _ =>
    let out := doGithub path (commitsUrl "" auth) decCommits [] w
    .value (⟨out.1.obj, out.1.cache, out.1.err⟩, out.2)
  | .ok np =>
    let out := doGithub path (commitsUrl np auth) decCommits [] w
    .value (⟨out.1.obj, out.1.cache, out.1.err⟩, out.2)

/-- The one field of `database.Package` the library reads. -/
structure Package where
  Path : String
deriving DecidableEq

/-- `ShouldArchivePackage` from gddoexp.go.  `now` stands for `time.Now()`;
`db` is the `gddoDB` collaborator (`ImporterCount`), whose failure is modelled
by an error message. -/
def ShouldArchivePackage (now : Int) (p : Package)
    (db : String → Except String Int) (auth : Option GithubAuth) (w : World) :
    GoResult ((Bool × Bool × Option Error) × World) :=
  match db p.Path with
  | .error msg =>
    .value ((false, true, some (NewError p.Path .ErrorCodeRetrieveImportCounts (some msg))), w)
  | .ok count =>
    if 0 < count then
      .value ((false, true, none), w)
    else
      match getGithubRepository p.Path auth w with
      | .panicked => .panicked
      | .value (rf, w1) =>
        match rf.err with
        | some e => .value ((false, rf.cache, some e), w1)
        | none =>
          .value ((decide (unused ≤ now - rf.repository.UpdatedAt), rf.cache, none), w1)

/-- The commit loop of `IsFastForkPackage`: walk the commits, break with
`fastFork = false` at the first commit strictly after the fork limit date,
and count the commits strictly after the creation date. -/
def commitsLoop (forkLimitDate createdAt : Int) :
    GithubCommits → Int → Bool × Int
  | [], acc => (true, acc)
  | c :: rest, acc =>
    if forkLimitDate < c.Commit.Author.Date then
      (false, acc)
    else if createdAt < c.Commit.Author.Date then
      commitsLoop forkLimitDate createdAt rest (acc + 1)
    else
      commitsLoop forkLimitDate createdAt rest acc

/-- `IsFastForkPackage` from gddoexp.go. -/
def IsFastForkPackage (p : Package) (auth : Option GithubAuth) (w : World) :
    GoResult ((Bool × Bool × Option Error) × World) :=
  match getGithubRepository p.Path auth w with
  | .panicked => .panicked
  | .value (rf, w1) =>
    match rf.err with
    | some e => .value ((false, rf.cache, some e), w1)
    | none =>
      if !rf.repository.Fork then
        .value ((false, rf.cache, none), w1)
      else
        match getCommits p.Path auth w1 with
        | .panicked => .panicked
        | .value (cf, w2) =>
          match cf.err with
          | some e => .value ((false, rf.cache && cf.cache, some e), w2)
          | none =>
            let forkLimitDate := rf.repository.CreatedAt + commitsPeriod
            let r := commitsLoop forkLimitDate rf.repository.CreatedAt cf.commits 0
            let fastFork := if commitsLimit < r.2 then false else r.1
            .value ((fastFork, rf.cache && cf.cache, none), w2)

/-- The `RateLimit` package variable from gddoexp.go. -/
structure RateLimitConfig where
  FillInterval : Int
  Capacity : Int
  AuthFillInterval : Int
  AuthCapacity : Int

/-- The initial value of `RateLimit`: one-minute refill with capacity `agents`
unauthenticated, one-second refill with capacity `agents` authenticated. -/
def RateLimit : RateLimitConfig :=
  ⟨Minute, agents, Second, agents⟩

/-- Parameters of the one `ratelimit.Bucket` a batch constructs. -/
structure BucketConfig where
  fillInterval : Int
  capacity : Int
deriving DecidableEq

/-- The bucket constructed once per batch by `ShouldArchivePackages` and
`AreFastForkPackages` (gddoexp.go lines 99-104 and 211-216): the
unauthenticated configuration when `auth == nil`, the authenticated one
otherwise. -/
def batchBucket (auth : Option GithubAuth) : BucketConfig :=
  match auth with
  | none => ⟨RateLimit.FillInterval, RateLimit.Capacity⟩
  | some _ => ⟨RateLimit.AuthFillInterval, RateLimit.AuthCapacity⟩

/-- `ArchiveResponse` from gddoexp.go. -/
structure ArchiveResponse where
  Path : String
  Archive : Bool
  Cache : Bool
  Error : Option Error
deriving DecidableEq

/-- `FastForkResponse` from gddoexp.go. -/
structure FastForkResponse where
  Path : String
  FastFork : Bool
  Cache : Bool
  Error : Option Error
deriving DecidableEq

/-- What one worker goroutine of a batch produces: the emitted results, each
paired with whether the worker acquired a rate-limiter token before that
package; the final world; the final `wait` flag; and whether the worker was
aborted by a panic. -/
structure WorkerOut (β : Type) where
  trace : List (Bool × β)
  world : World
  wait : Bool
  crashed : Bool

/-- One worker goroutine of `ShouldArchivePackages`, as the sequential loop of
gddoexp.go lines 112-137: `wait` starts true; a token is acquired only when
`wait` holds; after each emission `wait` becomes true unless the result was a
cache hit.  A panic inside the evaluation aborts the worker (and, in Go, the
process). -/
def archiveWorker (now : Int) (db : String → Except String Int)
    (auth : Option GithubAuth) : List Package → Bool → World → WorkerOut ArchiveResponse
  | [], wait, w => ⟨[], w, wait, false⟩
  | p :: rest, wait, w =>
    match ShouldArchivePackage now p db auth w with
    | .panicked => ⟨[], w, wait, true⟩
    | .value ((archive, cache, err), w1) =>
      let nextWait := if cache then false else true
      let r := archiveWorker now db auth rest nextWait w1
      ⟨(wait, ⟨p.Path, archive, cache, err⟩) :: r.trace, r.world, r.wait, r.crashed⟩

/-- One worker goroutine of `AreFastForkPackages` (gddoexp.go lines 224-249),
with the same wait-flag discipline as `archiveWorker`. -/
def fastForkWorker (auth : Option GithubAuth) :
    List Package → Bool → World → WorkerOut FastForkResponse
  | [], wait, w => ⟨[], w, wait, false⟩
  | p :: rest, wait, w =>
    match IsFastForkPackage p auth w with
    | .panicked => ⟨[], w, wait, true⟩
    | .value ((fastFork, cache, err), w1) =>
      let nextWait := if cache then false else true
      let r := fastForkWorker auth rest nextWait w1
      ⟨(wait, ⟨p.Path, fastFork, cache, err⟩) :: r.trace, r.world, r.wait, r.crashed⟩

/-- A world with no requests issued yet, over a client that answers by URL
only (the per-index uniformity used to state batch properties). -/
def freshWorld (g : String → GetOutcome) (pred : Option (HttpRsp → Bool)) : World :=
  ⟨fun _ u => g u, 0, [], pred⟩

/-- The isolated single-package archive evaluation used as the reference point
of the batch refinement: `ShouldArchivePackage` run in a fresh world, packaged
as the `ArchiveResponse` the worker would emit. -/
def singleArchive (now : Int) (db : String → Except String Int)
    (auth : Option GithubAuth) (g : String → GetOutcome)
    (pred : Option (HttpRsp → Bool)) (p : Package) : GoResult ArchiveResponse :=
  match ShouldArchivePackage now p db auth (freshWorld g pred) with
  | .panicked => .panicked
  | .value ((a, c, e), _) => .value ⟨p.Path, a, c, e⟩

/-- Total form of `singleArchive` (the default is only reached on a panic). -/
def singleArchiveD (now : Int) (db : String → Except String Int)
    (auth : Option GithubAuth) (g : String → GetOutcome)
    (pred : Option (HttpRsp → Bool)) (p : Package) : ArchiveResponse :=
  (singleArchive now db auth g pred p).getD ⟨p.Path, false, false, none⟩

/-- The isolated single-package fast-fork evaluation. -/
def singleFastFork (auth : Option GithubAuth) (g : String → GetOutcome)
    (pred : Option (HttpRsp → Bool)) (p : Package) : GoResult FastForkResponse :=
  match IsFastForkPackage p auth (freshWorld g pred) with
  | .panicked => .panicked
  | .value ((f, c, e), _) => .value ⟨p.Path, f, c, e⟩

/-- Total form of `singleFastFork`. -/
def singleFastForkD (auth : Option GithubAuth) (g : String → GetOutcome)
    (pred : Option (HttpRsp → Bool)) (p : Package) : FastForkResponse :=
  (singleFastFork auth g pred p).getD ⟨p.Path, false, false, none⟩

/-- The wait-flag chain invariant of a worker trace: starting from flag `b`,
each emitted pair records the current flag, and the next flag is the negated
cache bit of the emitted response. -/
def waitChainBy (cacheOf : β → Bool) : Bool → List (Bool × β) → Bool
  | _, [] => true
  | b, x :: rest => (x.1 == b) && waitChainBy cacheOf (!(cacheOf x.2)) rest

/-- Claim C1: `ShouldArchivePackage` returns Decision=false with CacheHit=true
and performs zero network calls (the world, hence the request counter and the
URL log, is unchanged) whenever `ImporterCount > 0`; otherwise it fetches the
repository and decides archiving by the pure elapsed-duration comparison
`now - UpdatedAt >= 730 days`, so an `UpdatedAt` exactly 730 days old decides
true and one 729 days old decides false. -/
theorem claim_C1 :
    (∀ (now : Int) (p : Package) (db : String → Except String Int)
       (auth : Option GithubAuth) (w : World) (c : Int),
       db p.Path = .ok c → 0 < c →
       ShouldArchivePackage now p db auth w = .value ((false, true, none), w)) ∧
    (∀ (now : Int) (p : Package) (db : String → Except String Int)
       (auth : Option GithubAuth) (w : World) (c : Int) (np : String)
       (rsp : HttpRsp) (r : GithubRepository),
       db p.Path = .ok c → ¬ 0 < c →
       normalizePath p.Path = .ok np →
       w.get w.calls (repoUrl np auth) = .success rsp →
       rsp.statusCode = 200 → rsp.body = .repo r →
       ShouldArchivePackage now p db auth w =
         .value ((decide (unused ≤ now - r.UpdatedAt),
                  (match w.isCacheResponse with
                   | none => false
                   | some f => f rsp),
                  none),
                 advanceW w (repoUrl np auth))) ∧
    (∀ now : Int,
       unused ≤ now - (now - 730 * Day) ∧ ¬ unused ≤ now - (now - 729 * Day)) := by
  refine ⟨?_, ?_, ?_⟩
  · intro now p db auth w c h1 h2
    simp [ShouldArchivePackage, h1, h2]
  · intro now p db auth w c np rsp r h1 h2 h3 h4 h5 h6
    simp [ShouldArchivePackage, h1, h2, getGithubRepository, h3, doGithub,
      classifyGithub, h4, h5, h6, decRepo]
  · intro now
    constructor
    · simp only [unused, Day, Hour, Minute, Second]; omega
    · simp only [unused, Day, Hour, Minute, Second]; omega

/-- Witness for C1 at concrete inputs: a package with five importers short
circuits with a cache hit and an unchanged world, and a package with zero
importers whose repository was updated exactly 730 days ago is archived. -/
theorem claim_C1_witness :
    ((fun _ : String => (.ok 5 : Except String Int)) "github.com/a/b" = .ok 5 ∧ (0 : Int) < 5 ∧
     ShouldArchivePackage 0 ⟨"github.com/a/b"⟩ (fun _ => .ok 5) none
       (freshWorld (fun _ => .failure "unreachable") none) =
       .value ((false, true, none), freshWorld (fun _ => .failure "unreachable") none)) ∧
    (normalizePath "github.com/a/b" = .ok "a/b" ∧
     ShouldArchivePackage 0 ⟨"github.com/a/b"⟩ (fun _ => .ok 0) none
       (freshWorld (fun _ => .success ⟨200, [], .repo ⟨0, false, 0, 0, 0, -(730 * Day)⟩⟩) none) =
       .value ((decide (unused ≤ 0 - (-(730 * Day))),
                (match (freshWorld (fun _ => .success ⟨200, [], .repo ⟨0, false, 0, 0, 0, -(730 * Day)⟩⟩)
                    (none : Option (HttpRsp → Bool))).isCacheResponse with
                 | none => false
                 | some f => f ⟨200, [], .repo ⟨0, false, 0, 0, 0, -(730 * Day)⟩⟩),
                none),
               advanceW (freshWorld (fun _ => .success ⟨200, [], .repo ⟨0, false, 0, 0, 0, -(730 * Day)⟩⟩) none)
                 (repoUrl "a/b" none))) := by
  constructor
  · exact ⟨rfl, by decide,
      claim_C1.1 0 ⟨"github.com/a/b"⟩ (fun _ => .ok 5) none _ 5 rfl (by decide)⟩
  · exact ⟨by decide,
      claim_C1.2.1 0 ⟨"github.com/a/b"⟩ (fun _ => .ok 0) none _ 0 "a/b"
        ⟨200, [], .repo ⟨0, false, 0, 0, 0, -(730 * Day)⟩⟩ ⟨0, false, 0, 0, 0, -(730 * Day)⟩
        rfl (by decide) (by decide) rfl rfl rfl⟩

/-- Claim C5: for a path with the hosting prefix, the normalized repository
identity is exactly the first two segments after the prefix (deeper segments
discarded); two sub-package paths of one repository normalize identically; and
the identity is what the repository API URL is built from. -/
theorem claim_C5 :
    (∀ (path o r : String) (rest : List String),
       githubHost.data.isPrefixOf path.data = true →
       splitSlash (stripHosting path) = o :: r :: rest →
       normalizePath path = .ok (o ++ "/" ++ r)) ∧
    (∀ (p1 p2 o r : String) (rest1 rest2 : List String),
       githubHost.data.isPrefixOf p1.data = true →
       githubHost.data.isPrefixOf p2.data = true →
       splitSlash (stripHosting p1) = o :: r :: rest1 →
       splitSlash (stripHosting p2) = o :: r :: rest2 →
       normalizePath p1 = normalizePath p2) ∧
    (∀ (path o r : String) (rest : List String) (auth : Option GithubAuth) (w : World),
       githubHost.data.isPrefixOf path.data = true →
       splitSlash (stripHosting path) = o :: r :: rest →
       ∃ rf, getGithubRepository path auth w =
         .value (rf, advanceW w (repoUrl (o ++ "/" ++ r) auth))) := by
  have base : ∀ (path o r : String) (rest : List String),
      githubHost.data.isPrefixOf path.data = true →
      splitSlash (stripHosting path) = o :: r :: rest →
      normalizePath path = .ok (o ++ "/" ++ r) := by
    intro path o r rest h1 h2
    simp [normalizePath, h1, h2]
  refine ⟨base, ?_, ?_⟩
  · intro p1 p2 o r rest1 rest2 h1 h2 h3 h4
    rw [base p1 o r rest1 h1 h3, base p2 o r rest2 h2 h4]
  · intro path o r rest auth w h1 h2
    rw [getGithubRepository, base path o r rest h1 h2]
    exact ⟨_, rfl⟩

/-- Witness for C5: `github.com/rafaeljusto/gddoexp/cmd/x` and
`github.com/rafaeljusto/gddoexp` both normalize to `rafaeljusto/gddoexp`. -/
theorem claim_C5_witness :
    (githubHost.data.isPrefixOf ("github.com/rafaeljusto/gddoexp/cmd/x" : String).data = true ∧
     splitSlash (stripHosting "github.com/rafaeljusto/gddoexp/cmd/x") =
       ["rafaeljusto", "gddoexp", "cmd", "x"] ∧
     normalizePath "github.com/rafaeljusto/gddoexp/cmd/x" = .ok "rafaeljusto/gddoexp") ∧
    normalizePath "github.com/rafaeljusto/gddoexp/cmd/x" =
      normalizePath "github.com/rafaeljusto/gddoexp" := by
  constructor
  · exact ⟨by decide, by decide,
      claim_C5.1 "github.com/rafaeljusto/gddoexp/cmd/x" "rafaeljusto" "gddoexp" ["cmd", "x"]
        (by decide) (by decide)⟩
  · exact claim_C5.2.1 "github.com/rafaeljusto/gddoexp/cmd/x" "github.com/rafaeljusto/gddoexp"
      "rafaeljusto" "gddoexp" ["cmd", "x"] [] (by decide) (by decide) (by decide) (by decide)

/-- Claim C6: a path without the hosting prefix yields the NonGithub error
with cache=true and an unchanged world (zero network calls), at the
repository fetch, in `IsFastForkPackage`, and in `ShouldArchivePackage` once
the importer-count short circuit does not fire. -/
theorem claim_C6 :
    (∀ (path : String) (auth : Option GithubAuth) (w : World),
       githubHost.data.isPrefixOf path.data = false →
       getGithubRepository path auth w =
         .value (⟨GithubRepository.zero, true, some (NewError path .ErrorCodeNonGithub none)⟩, w)) ∧
    (∀ (p : Package) (auth : Option GithubAuth) (w : World),
       githubHost.data.isPrefixOf p.Path.data = false →
       IsFastForkPackage p auth w =
         .value ((false, true, some (NewError p.Path .ErrorCodeNonGithub none)), w)) ∧
    (∀ (now : Int) (p : Package) (db : String → Except String Int)
       (auth : Option GithubAuth) (w : World) (c : Int),
       db p.Path = .ok c → ¬ 0 < c →
       githubHost.data.isPrefixOf p.Path.data = false →
       ShouldArchivePackage now p db auth w =
         .value ((false, true, some (NewError p.Path .ErrorCodeNonGithub none)), w)) := by
  have base : ∀ (path : String) (auth : Option GithubAuth) (w : World),
      githubHost.data.isPrefixOf path.data = false →
      getGithubRepository path auth w =
        .value (⟨GithubRepository.zero, true, some (NewError path .ErrorCodeNonGithub none)⟩, w) := by
    intro path auth w h
    simp [getGithubRepository, normalizePath, h]
  refine ⟨base, ?_, ?_⟩
  · intro p auth w h
    rw [IsFastForkPackage, base p.Path auth w h]
  · intro now p db auth w c h1 h2 h3
    rw [ShouldArchivePackage, h1]
    simp only [if_neg h2]
    rw [base p.Path auth w h3]

/-- Witness for C6 at a bitbucket path. -/
theorem claim_C6_witness :
    (githubHost.data.isPrefixOf ("bitbucket.org/x/y" : String).data = false ∧
     IsFastForkPackage ⟨"bitbucket.org/x/y"⟩ none
       (freshWorld (fun _ => .failure "unreachable") none) =
       .value ((false, true, some (NewError "bitbucket.org/x/y" .ErrorCodeNonGithub none)),
               freshWorld (fun _ => .failure "unreachable") none)) ∧
    ShouldArchivePackage 0 ⟨"bitbucket.org/x/y"⟩ (fun _ => .ok 0) none
      (freshWorld (fun _ => .failure "unreachable") none) =
      .value ((false, true, some (NewError "bitbucket.org/x/y" .ErrorCodeNonGithub none)),
              freshWorld (fun _ => .failure "unreachable") none) := by
  constructor
  · exact ⟨by decide, claim_C6.2.1 ⟨"bitbucket.org/x/y"⟩ none _ (by decide)⟩
  · exact claim_C6.2.2 0 ⟨"bitbucket.org/x/y"⟩ (fun _ => .ok 0) none _ 0 rfl
      (by decide) (by decide)

/-- Counterexample to C7 as stated: the authenticated bucket capacity is not
larger than the unauthenticated one — both are `agents` (4). -/
theorem claim_C7_counterexample :
    ¬ RateLimit.Capacity < RateLimit.AuthCapacity ∧
    RateLimit.AuthCapacity = RateLimit.Capacity := by
  constructor
  · simp [RateLimit]
  · rfl

/-- Claim C7 (amended): each batch chooses between the two fixed bucket
configurations by whether credentials were supplied; the authenticated one
has a strictly shorter refill interval, and both have the same capacity,
namely the worker count `agents`. -/
theorem claim_C7 :
    batchBucket none = ⟨RateLimit.FillInterval, RateLimit.Capacity⟩ ∧
    (∀ a : GithubAuth, batchBucket (some a) = ⟨RateLimit.AuthFillInterval, RateLimit.AuthCapacity⟩) ∧
    RateLimit.AuthFillInterval < RateLimit.FillInterval ∧
    RateLimit.AuthCapacity = RateLimit.Capacity ∧
    RateLimit.Capacity = agents := by
  refine ⟨rfl, fun a => rfl, ?_, rfl, rfl⟩
  simp [RateLimit, Second, Minute]

/-- Claim C10: `normalizePath` hits the out-of-range slice bound (a Go panic)
on hosting-prefixed paths with fewer than two following segments, and the
panic propagates: `ShouldArchivePackage` and `IsFastForkPackage` are not total
over such inputs. -/
theorem claim_C10 :
    normalizePath "github.com/owner" = .panicked ∧
    normalizePath "github.com/" = .panicked ∧
    ShouldArchivePackage 0 ⟨"github.com/owner"⟩ (fun _ => .ok 0) none
      (freshWorld (fun _ => .failure "unreachable") none) = .panicked ∧
    IsFastForkPackage ⟨"github.com/owner"⟩ none
      (freshWorld (fun _ => .failure "unreachable") none) = .panicked := by
  exact ⟨by decide, by decide, rfl, rfl⟩

/-- Claim C3 concerns the 403 handling of `doGithub`.  The repository's own
test (`gddoexp_test.go`, the case named with "403 Forbidden (ratelimit) with
reset HTTP header") scripts a first response of 403 carrying
`X-Ratelimit-Reset` and a second response of 200, and expects the package to
be archived, i.e. a transparent single retry.  This theorem evaluates the code
on exactly that script: after the 403 the evaluation stops with the
GithubForbidden error, exactly one request was issued (the counter moves from
0 to 1), no retry happens — although, as the last conjunct shows, the second
scripted response would have classified as a successful fetch. -/
theorem claim_C3 :
    let rsp403 : HttpRsp := ⟨403, [("X-Ratelimit-Reset", "1450000000")], .malformed⟩
    let rsp200 : HttpRsp := ⟨200, [], .repo ⟨0, false, 194, 194, 1133, -(730 * Day)⟩⟩
    let w : World :=
      ⟨fun i _ => if i = 0 then .success rsp403 else .success rsp200, 0, [], none⟩
    ShouldArchivePackage 0 ⟨"github.com/rafaeljusto/gddoexp"⟩ (fun _ => .ok 0) none w =
      .value ((false, false,
               some (NewError "github.com/rafaeljusto/gddoexp" .ErrorCodeGithubForbidden none)),
              ⟨w.get, 1, [repoUrl "rafaeljusto/gddoexp" none], none⟩) ∧
    (classifyGithub "github.com/rafaeljusto/gddoexp"
        (w.get 1 (repoUrl "rafaeljusto/gddoexp" none)) none decRepo GithubRepository.zero).err =
      none := by
  exact ⟨rfl, rfl⟩

/-- Counterexample to C4 as stated: with a cache-hit predicate that answers
true on every raw response, a fetch that returns 404 (one request issued, so a
real fetch did occur) reports CacheHit=false, not the predicate verdict. -/
theorem claim_C4_counterexample :
    let rsp404 : HttpRsp := ⟨404, [("Cache", "1")], .malformed⟩
    let w : World := ⟨fun _ _ => .success rsp404, 0, [], some (fun _ => true)⟩
    ShouldArchivePackage 0 ⟨"github.com/a/b"⟩ (fun _ => .ok 0) none w =
      .value ((false, false, some (NewError "github.com/a/b" .ErrorCodeGithubNotFound none)),
              ⟨w.get, 1, [repoUrl "a/b" none], w.isCacheResponse⟩) ∧
    (fun _ : HttpRsp => true) rsp404 = true := by
  exact ⟨rfl, rfl⟩

/-- Claim C4 (amended): CacheHit is true on every no-network short circuit
(datastore failure, positive importer count, non-hosting path — the world is
unchanged in each case); when a fetch occurs and classifies as a success
(status 200, decodable body), CacheHit is the verdict of the injected
predicate on the raw response, and always false when no predicate is
configured; a fetch that classifies as an error reports CacheHit=false
regardless of the predicate. -/
theorem claim_C4 :
    (∀ (now : Int) (p : Package) (db : String → Except String Int)
       (auth : Option GithubAuth) (w : World) (msg : String),
       db p.Path = .error msg →
       ShouldArchivePackage now p db auth w =
         .value ((false, true,
                  some (NewError p.Path .ErrorCodeRetrieveImportCounts (some msg))), w)) ∧
    (∀ (now : Int) (p : Package) (db : String → Except String Int)
       (auth : Option GithubAuth) (w : World) (c : Int),
       db p.Path = .ok c → 0 < c →
       ShouldArchivePackage now p db auth w = .value ((false, true, none), w)) ∧
    (∀ (path : String) (auth : Option GithubAuth) (w : World),
       githubHost.data.isPrefixOf path.data = false →
       (getGithubRepository path auth w).getD (⟨GithubRepository.zero, false, none⟩, w) =
         (⟨GithubRepository.zero, true, some (NewError path .ErrorCodeNonGithub none)⟩, w)) ∧
    (∀ (path url : String) (dec : BodyVal → Except String GithubRepository)
       (dflt : GithubRepository) (w : World) (rsp : HttpRsp) (obj : GithubRepository),
       w.get w.calls url = .success rsp → rsp.statusCode = 200 → dec rsp.body = .ok obj →
       (doGithub path url dec dflt w).1.cache =
         (match w.isCacheResponse with
          | none => false
          | some f => f rsp)) ∧
    (∀ (path url : String) (dec : BodyVal → Except String GithubRepository)
       (dflt : GithubRepository) (w : World),
       w.isCacheResponse = none → (doGithub path url dec dflt w).1.cache = false) ∧
    (∀ (path url : String) (dec : BodyVal → Except String GithubRepository)
       (dflt : GithubRepository) (w : World),
       (doGithub path url dec dflt w).1.err ≠ none →
       (doGithub path url dec dflt w).1.cache = false) := by
  refine ⟨?_, ?_, ?_, ?_, ?_, ?_⟩
  · intro now p db auth w msg h
    simp [ShouldArchivePackage, h]
  · intro now p db auth w c h1 h2
    simp [ShouldArchivePackage, h1, h2]
  · intro path auth w h
    simp [getGithubRepository, normalizePath, h, GoResult.getD]
  · intro path url dec dflt w rsp obj h1 h2 h3
    simp [doGithub, classifyGithub, h1, h2, h3]
  · intro path url dec dflt w h
    rcases h1 : w.get w.calls url with msg | rsp
    · simp [doGithub, classifyGithub, h1]
    · rcases h2 : dec rsp.body with msg | obj <;>
        by_cases h3 : rsp.statusCode = 200 <;>
        by_cases h4 : rsp.statusCode = 403 <;>
        by_cases h5 : rsp.statusCode = 404 <;>
        simp [doGithub, classifyGithub, h1, h2, h3, h4, h5, h]
  · intro path url dec dflt w h
    revert h
    rcases h1 : w.get w.calls url with msg | rsp
    · simp [doGithub, classifyGithub, h1]
    · rcases h2 : dec rsp.body with msg | obj <;>
        by_cases h3 : rsp.statusCode = 200 <;>
        by_cases h4 : rsp.statusCode = 403 <;>
        by_cases h5 : rsp.statusCode = 404 <;>
        simp [doGithub, classifyGithub, h1, h2, h3, h4, h5]

/-- Witness for C4: on a 200 cache-served response with the header-based
predicate of the repository's tests, CacheHit is the predicate verdict true;
with no predicate configured it is false; the importer-count short circuit
reports CacheHit=true. -/
theorem claim_C4_witness :
    let pred : HttpRsp → Bool := fun r => (r.header.lookup "Cache").getD "" == "1"
    let rsp : HttpRsp := ⟨200, [("Cache", "1")], .repo ⟨0, false, 0, 0, 0, 0⟩⟩
    let w : World := ⟨fun _ _ => .success rsp, 0, [], some pred⟩
    let w0 : World := ⟨fun _ _ => .success rsp, 0, [], none⟩
    ((fun _ : String => (.ok 3 : Except String Int)) "x" = .ok 3 ∧ (0 : Int) < 3 ∧
     ShouldArchivePackage 0 ⟨"x"⟩ (fun _ => .ok 3) none w = .value ((false, true, none), w)) ∧
    (w.get w.calls "u" = .success rsp ∧ rsp.statusCode = 200 ∧ decRepo rsp.body = .ok ⟨0, false, 0, 0, 0, 0⟩ ∧
     (doGithub "p" "u" decRepo GithubRepository.zero w).1.cache =
       (match w.isCacheResponse with
        | none => false
        | some f => f rsp)) ∧
    (w0.isCacheResponse = none ∧
     (doGithub "p" "u" decRepo GithubRepository.zero w0).1.cache = false) := by
  refine ⟨⟨rfl, by decide, claim_C4.2.1 0 ⟨"x"⟩ (fun _ => .ok 3) none _ 3 rfl (by decide)⟩,
          ⟨rfl, rfl, rfl, claim_C4.2.2.2.1 "p" "u" decRepo GithubRepository.zero _
            ⟨200, [("Cache", "1")], .repo ⟨0, false, 0, 0, 0, 0⟩⟩ ⟨0, false, 0, 0, 0, 0⟩ rfl rfl rfl⟩,
          ⟨rfl, claim_C4.2.2.2.2.1 "p" "u" decRepo GithubRepository.zero _ rfl⟩⟩

/-- The loop of `IsFastForkPackage` stops with a false flag (and the partial
count) as soon as a commit is dated strictly after the fork limit date. -/
theorem commitsLoop_break (W C acc : Int) (c : CommitEntry) (rest : GithubCommits)
    (h : W < c.Commit.Author.Date) :
    commitsLoop W C (c :: rest) acc = (false, acc) := by
  simp [commitsLoop, h]

/-- If some commit is dated strictly after the fork limit date, the loop flag
is false. -/
theorem commitsLoop_flag_false (W C : Int) (cs : GithubCommits) :
    ∀ acc : Int, (cs.any fun c => decide (W < c.Commit.Author.Date)) = true →
    (commitsLoop W C cs acc).1 = false := by
  induction cs with
  | nil => intro acc h; simp at h
  | cons c rest ih =>
    intro acc h
    by_cases hc : W < c.Commit.Author.Date
    · simp [commitsLoop, hc]
    · have : (rest.any fun c => decide (W < c.Commit.Author.Date)) = true := by
        simpa [hc] using h
      simp only [commitsLoop, if_neg hc]
      by_cases hd : C < c.Commit.Author.Date
      · simpa [hd] using ih (acc + 1) this
      · simpa [hd] using ih acc this

/-- If no commit is dated strictly after the fork limit date, the loop
finishes with a true flag and counts the commits dated strictly after the
creation date. -/
theorem commitsLoop_all (W C : Int) (cs : GithubCommits) :
    ∀ acc : Int, (∀ c ∈ cs, ¬ W < c.Commit.Author.Date) →
    commitsLoop W C cs acc =
      (true, acc + ((cs.filter fun c => decide (C < c.Commit.Author.Date)).length : Int)) := by
  induction cs with
  | nil => intro acc _; simp [commitsLoop]
  | cons c rest ih =>
    intro acc h
    have hc : ¬ W < c.Commit.Author.Date := h c (by simp)
    have hrest : ∀ x ∈ rest, ¬ W < x.Commit.Author.Date := fun x hx => h x (by simp [hx])
    simp only [commitsLoop, if_neg hc]
    by_cases hd : C < c.Commit.Author.Date
    · rw [if_pos hd, ih (acc + 1) hrest]
      simp [hd]
      omega
    · rw [if_neg hd, ih acc hrest]
      simp [hd]

/-- The post-loop fast-fork flag of `IsFastForkPackage`, characterized: false
when a commit falls strictly after the fork limit date, otherwise true exactly
when at most `commitsLimit` commits are dated strictly after creation. -/
theorem fastForkFlag_spec (W C : Int) (cs : GithubCommits) :
    (if commitsLimit < (commitsLoop W C cs 0).2 then false else (commitsLoop W C cs 0).1) =
    (!(cs.any fun c => decide (W < c.Commit.Author.Date)) &&
      decide (((cs.filter fun c => decide (C < c.Commit.Author.Date)).length : Int) ≤ commitsLimit)) := by
  by_cases hA : (cs.any fun c => decide (W < c.Commit.Author.Date)) = true
  · have := commitsLoop_flag_false W C cs 0 hA
    rw [hA]
    by_cases h2 : commitsLimit < (commitsLoop W C cs 0).2
    · simp [h2]
    · simp [h2, this]
  · have hall : ∀ c ∈ cs, ¬ W < c.Commit.Author.Date := by
      intro c hc
      by_contra hlt
      exact hA (List.any_eq_true.mpr ⟨c, hc, by simpa using hlt⟩)
    rw [commitsLoop_all W C cs 0 hall]
    rw [Bool.not_eq_true] at hA
    rw [hA]
    by_cases h2 : ((cs.filter fun c => decide (C < c.Commit.Author.Date)).length : Int) ≤ commitsLimit
    · rw [if_neg (by omega), decide_eq_true h2]
      simp
    · rw [if_pos (by omega)]
      simp [h2]

/-- Claim C2: `IsFastForkPackage` on a non-fork answers false after the single
repository fetch, issuing no commit request (the URL log grows only by the
repository URL); on a fork it fetches the commits and answers false if some
commit is dated strictly after `CreatedAt + 7 days` — the loop breaking at the
first such commit — and otherwise answers true exactly when at most 2 commits
are dated strictly after `CreatedAt`. -/
theorem claim_C2 :
    (∀ (p : Package) (auth : Option GithubAuth) (w : World) (np : String)
       (rspR : HttpRsp) (r : GithubRepository),
       normalizePath p.Path = .ok np →
       w.get w.calls (repoUrl np auth) = .success rspR →
       rspR.statusCode = 200 → rspR.body = .repo r → r.Fork = false →
       IsFastForkPackage p auth w =
         .value ((false,
                  (match w.isCacheResponse with
                   | none => false
                   | some f => f rspR),
                  none),
                 advanceW w (repoUrl np auth))) ∧
    (∀ (p : Package) (auth : Option GithubAuth) (w : World) (np : String)
       (rspR rspC : HttpRsp) (r : GithubRepository) (cs : GithubCommits),
       normalizePath p.Path = .ok np →
       w.get w.calls (repoUrl np auth) = .success rspR →
       rspR.statusCode = 200 → rspR.body = .repo r → r.Fork = true →
       w.get (w.calls + 1) (commitsUrl np auth) = .success rspC →
       rspC.statusCode = 200 → rspC.body = .commits cs →
       IsFastForkPackage p auth w =
         .value (((!(cs.any fun c => decide (r.CreatedAt + commitsPeriod < c.Commit.Author.Date)) &&
                   decide (((cs.filter fun c => decide (r.CreatedAt < c.Commit.Author.Date)).length : Int) ≤ commitsLimit)),
                  ((match w.isCacheResponse with
                    | none => false
                    | some f => f rspR) &&
                   (match w.isCacheResponse with
                    | none => false
                    | some f => f rspC)),
                  none),
                 advanceW (advanceW w (repoUrl np auth)) (commitsUrl np auth))) ∧
    (∀ (W C acc : Int) (c : CommitEntry) (rest : GithubCommits),
       W < c.Commit.Author.Date →
       commitsLoop W C (c :: rest) acc = (false, acc)) := by
  refine ⟨?_, ?_, commitsLoop_break⟩
  · intro p auth w np rspR r h1 h2 h3 h4 h5
    simp [IsFastForkPackage, getGithubRepository, h1, doGithub, classifyGithub,
      h2, h3, h4, h5, decRepo]
  · intro p auth w np rspR rspC r cs h1 h2 h3 h4 h5 h6 h7 h8
    have hflag := fastForkFlag_spec (r.CreatedAt + commitsPeriod) r.CreatedAt cs
    simp [IsFastForkPackage, getGithubRepository, h1, doGithub, classifyGithub,
      h2, h3, h4, h5, decRepo, getCommits, h6, h7, h8, decCommits, advanceW, hflag]

/-- Witness for C2: a fork created at time 0 with two commits inside the
seven-day window is a fast fork; with three such commits it is not. -/
theorem claim_C2_witness :
    let mk : Int → CommitEntry := fun d => ⟨⟨⟨d⟩⟩⟩
    let repo : GithubRepository := ⟨0, true, 0, 0, 0, 0⟩
    let w2 : World :=
      ⟨fun i _ => if i = 0 then .success ⟨200, [], .repo repo⟩
                  else .success ⟨200, [], .commits [mk 1, mk 2]⟩, 0, [], none⟩
    let w3 : World :=
      ⟨fun i _ => if i = 0 then .success ⟨200, [], .repo repo⟩
                  else .success ⟨200, [], .commits [mk 1, mk 2, mk 3]⟩, 0, [], none⟩
    IsFastForkPackage ⟨"github.com/a/b"⟩ none w2 =
      .value ((true, false, none),
              advanceW (advanceW w2 (repoUrl "a/b" none)) (commitsUrl "a/b" none)) ∧
    IsFastForkPackage ⟨"github.com/a/b"⟩ none w3 =
      .value ((false, false, none),
              advanceW (advanceW w3 (repoUrl "a/b" none)) (commitsUrl "a/b" none)) := by
  constructor
  · exact claim_C2.2.1 ⟨"github.com/a/b"⟩ none _ "a/b" ⟨200, [], .repo ⟨0, true, 0, 0, 0, 0⟩⟩
      ⟨200, [], .commits [⟨⟨⟨1⟩⟩⟩, ⟨⟨⟨2⟩⟩⟩]⟩ ⟨0, true, 0, 0, 0, 0⟩ [⟨⟨⟨1⟩⟩⟩, ⟨⟨⟨2⟩⟩⟩]
      (by decide) rfl rfl rfl rfl rfl rfl rfl
  · exact claim_C2.2.1 ⟨"github.com/a/b"⟩ none _ "a/b" ⟨200, [], .repo ⟨0, true, 0, 0, 0, 0⟩⟩
      ⟨200, [], .commits [⟨⟨⟨1⟩⟩⟩, ⟨⟨⟨2⟩⟩⟩, ⟨⟨⟨3⟩⟩⟩]⟩ ⟨0, true, 0, 0, 0, 0⟩ [⟨⟨⟨1⟩⟩⟩, ⟨⟨⟨2⟩⟩⟩, ⟨⟨⟨3⟩⟩⟩]
      (by decide) rfl rfl rfl rfl rfl rfl rfl

/-- The first entry of a trace satisfying the wait chain records the starting
flag. -/
theorem waitChainBy_head (f : β → Bool) (t : List (Bool × β)) (b : Bool)
    (h : waitChainBy f b t = true) (hl : 0 < t.length) : (t.get ⟨0, hl⟩).1 = b := by
  cases t with
  | nil => simp at hl
  | cons x rest =>
    simp only [waitChainBy, Bool.and_eq_true, beq_iff_eq] at h
    exact h.1

/-- In a trace satisfying the wait chain, each entry after the first records
the negated cache bit of its predecessor. -/
theorem waitChainBy_succ (f : β → Bool) :
    ∀ (t : List (Bool × β)) (b : Bool), waitChainBy f b t = true →
    ∀ (i : Nat) (h1 : i < t.length) (h2 : i + 1 < t.length),
    (t.get ⟨i + 1, h2⟩).1 = !(f (t.get ⟨i, h1⟩).2) := by
  intro t
  induction t with
  | nil => intro b _ i h1 _; simp at h1
  | cons x rest ih =>
    intro b h i h1 h2
    simp only [waitChainBy, Bool.and_eq_true, beq_iff_eq] at h
    cases i with
    | zero =>
      have hr : 0 < rest.length := by simpa using h2
      simpa using waitChainBy_head f rest (!(f x.2)) h.2 hr
    | succ j =>
      have hr1 : j < rest.length := by simpa using Nat.lt_of_succ_lt_succ h1
      have hr2 : j + 1 < rest.length := by simpa using Nat.lt_of_succ_lt_succ h2
      simpa using ih (!(f x.2)) h.2 j hr1 hr2

/-- The trace of an archive worker satisfies the wait chain from its starting
flag. -/
theorem archiveWorker_chain (now : Int) (db : String → Except String Int)
    (auth : Option GithubAuth) :
    ∀ (l : List Package) (wait : Bool) (w : World),
    waitChainBy (fun r => r.Cache) wait ((archiveWorker now db auth l wait w).trace) = true := by
  intro l
  induction l with
  | nil => intro wait w; rfl
  | cons p rest ih =>
    intro wait w
    rcases h : ShouldArchivePackage now p db auth w with _ | ⟨⟨a, c, e⟩, w1⟩
    · simp [archiveWorker, h, waitChainBy]
    · simp only [archiveWorker, h]
      simp only [waitChainBy, beq_self_eq_true, Bool.true_and]
      cases c
      · simpa using ih true w1
      · simpa using ih false w1

/-- The trace of a fast-fork worker satisfies the wait chain from its starting
flag. -/
theorem fastForkWorker_chain (auth : Option GithubAuth) :
    ∀ (l : List Package) (wait : Bool) (w : World),
    waitChainBy (fun r => r.Cache) wait ((fastForkWorker auth l wait w).trace) = true := by
  intro l
  induction l with
  | nil => intro wait w; rfl
  | cons p rest ih =>
    intro wait w
    rcases h : IsFastForkPackage p auth w with _ | ⟨⟨a, c, e⟩, w1⟩
    · simp [fastForkWorker, h, waitChainBy]
    · simp only [fastForkWorker, h]
      simp only [waitChainBy, beq_self_eq_true, Bool.true_and]
      cases c
      · simpa using ih true w1
      · simpa using ih false w1

/-- Claim C8: each worker of a batch, as a sequential loop, starts with
`shouldWait = true` (it acquires a token before its first package), acquires a
token before a later package exactly when the cache bit of the previously
emitted result was false, and after every emission the flag becomes the
negated cache bit — for the archive workers and the fast-fork workers alike. -/
theorem claim_C8 :
    (∀ (now : Int) (db : String → Except String Int) (auth : Option GithubAuth)
       (l : List Package) (w : World),
       waitChainBy (fun r => r.Cache) true ((archiveWorker now db auth l true w).trace) = true) ∧
    (∀ (now : Int) (db : String → Except String Int) (auth : Option GithubAuth)
       (l : List Package) (w : World)
       (h : 0 < (archiveWorker now db auth l true w).trace.length),
       (((archiveWorker now db auth l true w).trace).get ⟨0, h⟩).1 = true) ∧
    (∀ (now : Int) (db : String → Except String Int) (auth : Option GithubAuth)
       (l : List Package) (w : World) (i : Nat)
       (h1 : i < (archiveWorker now db auth l true w).trace.length)
       (h2 : i + 1 < (archiveWorker now db auth l true w).trace.length),
       (((archiveWorker now db auth l true w).trace).get ⟨i + 1, h2⟩).1 =
         !((((archiveWorker now db auth l true w).trace).get ⟨i, h1⟩).2.Cache)) ∧
    (∀ (auth : Option GithubAuth) (l : List Package) (w : World),
       waitChainBy (fun r => r.Cache) true ((fastForkWorker auth l true w).trace) = true) ∧
    (∀ (auth : Option GithubAuth) (l : List Package) (w : World)
       (h : 0 < (fastForkWorker auth l true w).trace.length),
       (((fastForkWorker auth l true w).trace).get ⟨0, h⟩).1 = true) ∧
    (∀ (auth : Option GithubAuth) (l : List Package) (w : World) (i : Nat)
       (h1 : i < (fastForkWorker auth l true w).trace.length)
       (h2 : i + 1 < (fastForkWorker auth l true w).trace.length),
       (((fastForkWorker auth l true w).trace).get ⟨i + 1, h2⟩).1 =
         !((((fastForkWorker auth l true w).trace).get ⟨i, h1⟩).2.Cache)) := by
  refine ⟨fun now db auth l w => archiveWorker_chain now db auth l true w,
          fun now db auth l w h =>
            waitChainBy_head _ _ _ (archiveWorker_chain now db auth l true w) h,
          fun now db auth l w i h1 h2 =>
            waitChainBy_succ _ _ _ (archiveWorker_chain now db auth l true w) i h1 h2,
          fun auth l w => fastForkWorker_chain auth l true w,
          fun auth l w h =>
            waitChainBy_head _ _ _ (fastForkWorker_chain auth l true w) h,
          fun auth l w i h1 h2 =>
            waitChainBy_succ _ _ _ (fastForkWorker_chain auth l true w) i h1 h2⟩

/-- Witness for C8: a two-package run whose first package is resolved from
cache (importer count positive), so the worker waits before the first package
and skips the wait before the second. -/
theorem claim_C8_witness :
    let db : String → Except String Int :=
      fun p => if p = "github.com/x/y" then .ok 0 else .ok 1
    let w : World :=
      ⟨fun _ _ => .success ⟨200, [], .repo ⟨0, false, 0, 0, 0, 0⟩⟩, 0, [], none⟩
    let t := (archiveWorker 0 db none [⟨"a"⟩, ⟨"github.com/x/y"⟩] true w).trace
    waitChainBy (fun r => r.Cache) true t = true ∧
    (t.get ⟨0, by decide⟩).1 = true ∧
    (t.get ⟨1, by decide⟩).1 = !((t.get ⟨0, by decide⟩).2.Cache) := by
  refine ⟨claim_C8.1 0 _ none [⟨"a"⟩, ⟨"github.com/x/y"⟩] _,
          claim_C8.2.1 0 _ none [⟨"a"⟩, ⟨"github.com/x/y"⟩] _ (by decide),
          claim_C8.2.2.1 0 _ none [⟨"a"⟩, ⟨"github.com/x/y"⟩] _ 0 (by decide) (by decide)⟩

/-- `ShouldArchivePackage` only ever advances the request counter and the log:
the client function and the cache predicate of the world are unchanged. -/
theorem ShouldArchivePackage_world (now : Int) (p : Package)
    (db : String → Except String Int) (auth : Option GithubAuth) (w : World)
    (x : Bool × Bool × Option Error) (w1 : World)
    (h : ShouldArchivePackage now p db auth w = .value (x, w1)) :
    w1.get = w.get ∧ w1.isCacheResponse = w.isCacheResponse := by
  rcases hdb : db p.Path with msg | c <;>
    simp only [ShouldArchivePackage, hdb] at h
  · simp only [GoResult.value.injEq, Prod.mk.injEq] at h
    rw [← h.2]
    exact ⟨rfl, rfl⟩
  · by_cases hc : 0 < c
    · simp only [hc, if_true, GoResult.value.injEq, Prod.mk.injEq] at h
      rw [← h.2]
      exact ⟨rfl, rfl⟩
    · simp only [hc, if_false] at h
      rcases hn : normalizePath p.Path with _ | e | np <;>
        simp only [getGithubRepository, hn, doGithub] at h
      · exact absurd h (by simp)
      · simp only [GoResult.value.injEq, Prod.mk.injEq] at h
        rw [← h.2]
        exact ⟨rfl, rfl⟩
      · rcases herr : (classifyGithub p.Path
            (w.get w.calls (repoUrl np auth)) w.isCacheResponse decRepo
            GithubRepository.zero).err with _ | e <;>
          simp only [herr, GoResult.value.injEq, Prod.mk.injEq] at h <;>
          rw [← h.2] <;> exact ⟨rfl, rfl⟩

/-- `IsFastForkPackage` only ever advances the request counter and the log. -/
theorem IsFastForkPackage_world (p : Package) (auth : Option GithubAuth) (w : World)
    (x : Bool × Bool × Option Error) (w1 : World)
    (h : IsFastForkPackage p auth w = .value (x, w1)) :
    w1.get = w.get ∧ w1.isCacheResponse = w.isCacheResponse := by
  rcases hn : normalizePath p.Path with _ | e | np <;>
    simp only [IsFastForkPackage, getGithubRepository, getCommits, hn, doGithub] at h
  · exact absurd h (by simp)
  · simp only [GoResult.value.injEq, Prod.mk.injEq] at h
    rw [← h.2]
    exact ⟨rfl, rfl⟩
  · rcases herr : (classifyGithub p.Path
        (w.get w.calls (repoUrl np auth)) w.isCacheResponse decRepo
        GithubRepository.zero).err with _ | e <;>
      simp only [herr] at h
    · by_cases hf : (classifyGithub p.Path
          (w.get w.calls (repoUrl np auth)) w.isCacheResponse decRepo
          GithubRepository.zero).obj.Fork <;>
        simp only [hf, Bool.not_true, Bool.not_false, Bool.false_eq_true,
          Bool.true_eq_false, if_true, if_false] at h
      · rcases herr2 : (classifyGithub p.Path
            ((advanceW w (repoUrl np auth)).get (advanceW w (repoUrl np auth)).calls
              (commitsUrl np auth))
            (advanceW w (repoUrl np auth)).isCacheResponse decCommits []).err with _ | e2 <;>
          simp only [herr2, GoResult.value.injEq, Prod.mk.injEq] at h <;>
          rw [← h.2] <;> exact ⟨rfl, rfl⟩
      · simp only [GoResult.value.injEq, Prod.mk.injEq] at h
        rw [← h.2]
        exact ⟨rfl, rfl⟩
    · simp only [GoResult.value.injEq, Prod.mk.injEq] at h
      rw [← h.2]
      exact ⟨rfl, rfl⟩

/-- Over a client that answers by URL only, the visible outcome of
`ShouldArchivePackage` does not depend on the request counter or the log. -/
theorem ShouldArchivePackage_uniform (now : Int) (p : Package)
    (db : String → Except String Int) (auth : Option GithubAuth) (w : World)
    (g : String → GetOutcome) (pred : Option (HttpRsp → Bool))
    (hg : ∀ i u, w.get i u = g u) (hp : w.isCacheResponse = pred) :
    dropWorld (ShouldArchivePackage now p db auth w) =
      dropWorld (ShouldArchivePackage now p db auth (freshWorld g pred)) := by
  rcases hdb : db p.Path with msg | c <;>
    simp only [ShouldArchivePackage, hdb]
  · rfl
  · by_cases hc : 0 < c <;>
      simp only [hc, if_true, if_false]
    · rfl
    · rcases hn : normalizePath p.Path with _ | e | np <;>
        simp only [getGithubRepository, hn, doGithub, freshWorld, hg, hp]
      all_goals try rfl
      rcases herr : (classifyGithub p.Path (g (repoUrl np auth)) pred decRepo
          GithubRepository.zero).err with _ | e <;>
        simp only [herr] <;> rfl

/-- Over a client that answers by URL only, the visible outcome of
`IsFastForkPackage` does not depend on the request counter or the log. -/
theorem IsFastForkPackage_uniform (p : Package) (auth : Option GithubAuth) (w : World)
    (g : String → GetOutcome) (pred : Option (HttpRsp → Bool))
    (hg : ∀ i u, w.get i u = g u) (hp : w.isCacheResponse = pred) :
    dropWorld (IsFastForkPackage p auth w) =
      dropWorld (IsFastForkPackage p auth (freshWorld g pred)) := by
  rcases hn : normalizePath p.Path with _ | e | np <;>
    simp only [IsFastForkPackage, getGithubRepository, getCommits, hn, doGithub,
      freshWorld, advanceW, hg, hp]
  all_goals try rfl
  rcases herr : (classifyGithub p.Path (g (repoUrl np auth)) pred decRepo
      GithubRepository.zero).err with _ | e <;>
    simp only [herr]
  all_goals try rfl
  by_cases hf : (classifyGithub p.Path (g (repoUrl np auth)) pred decRepo
      GithubRepository.zero).obj.Fork <;>
    simp only [hf, Bool.not_true, Bool.not_false, Bool.false_eq_true,
      Bool.true_eq_false, if_true, if_false]
  all_goals try rfl
  rcases herr2 : (classifyGithub p.Path (g (commitsUrl np auth)) pred
      decCommits []).err with _ | e2 <;>
    simp only [herr2] <;> rfl

/-- The path of an isolated archive evaluation is the package path. -/
theorem singleArchiveD_Path (now : Int) (db : String → Except String Int)
    (auth : Option GithubAuth) (g : String → GetOutcome)
    (pred : Option (HttpRsp → Bool)) (p : Package) :
    (singleArchiveD now db auth g pred p).Path = p.Path := by
  rcases h : ShouldArchivePackage now p db auth (freshWorld g pred) with _ | ⟨⟨a, c, e⟩, w1⟩ <;>
    simp [singleArchiveD, singleArchive, h, GoResult.getD]

/-- The path of an isolated fast-fork evaluation is the package path. -/
theorem singleFastForkD_Path (auth : Option GithubAuth) (g : String → GetOutcome)
    (pred : Option (HttpRsp → Bool)) (p : Package) :
    (singleFastForkD auth g pred p).Path = p.Path := by
  rcases h : IsFastForkPackage p auth (freshWorld g pred) with _ | ⟨⟨a, c, e⟩, w1⟩ <;>
    simp [singleFastForkD, singleFastFork, h, GoResult.getD]

/-- Over a URL-pure client, and when no isolated evaluation panics, an archive
worker emits exactly the isolated evaluation of each of its packages, in
order. -/
theorem archiveWorker_traceMap (now : Int) (db : String → Except String Int)
    (auth : Option GithubAuth) (g : String → GetOutcome)
    (pred : Option (HttpRsp → Bool)) :
    ∀ (l : List Package) (wait : Bool) (w : World),
    (∀ i u, w.get i u = g u) → w.isCacheResponse = pred →
    (∀ p ∈ l, singleArchive now db auth g pred p ≠ .panicked) →
    (archiveWorker now db auth l wait w).trace.map (fun x => x.2) =
      l.map (singleArchiveD now db auth g pred) := by
  intro l
  induction l with
  | nil => intro wait w _ _ _; rfl
  | cons p rest ih =>
    intro wait w hg hp hnp
    have hu := ShouldArchivePackage_uniform now p db auth w g pred hg hp
    rcases h : ShouldArchivePackage now p db auth w with _ | ⟨⟨a, c, e⟩, w1⟩
    · exfalso
      apply hnp p (by simp)
      rw [h] at hu
      rcases h2 : ShouldArchivePackage now p db auth (freshWorld g pred) with _ | v
      · simp [singleArchive, h2]
      · rw [h2] at hu; simp [dropWorld] at hu
    · have hworld := ShouldArchivePackage_world now p db auth w _ _ h
      have hresp : singleArchiveD now db auth g pred p = ⟨p.Path, a, c, e⟩ := by
        rw [h] at hu
        rcases h2 : ShouldArchivePackage now p db auth (freshWorld g pred) with _ | ⟨⟨a2, c2, e2⟩, w2⟩
        · rw [h2] at hu; simp [dropWorld] at hu
        · rw [h2] at hu
          simp only [dropWorld, GoResult.value.injEq] at hu
          simp [singleArchiveD, singleArchive, h2, GoResult.getD, ← hu]
      simp only [archiveWorker, h, List.map]
      rw [hresp]
      have hg1 : ∀ i u, w1.get i u = g u := fun i u => by rw [hworld.1]; exact hg i u
      have hp1 : w1.isCacheResponse = pred := hworld.2.trans hp
      rw [ih _ w1 hg1 hp1 (fun q hq => hnp q (by simp [hq]))]

/-- Over a URL-pure client, and when no isolated evaluation panics, a
fast-fork worker emits exactly the isolated evaluation of each of its
packages, in order. -/
theorem fastForkWorker_traceMap (auth : Option GithubAuth) (g : String → GetOutcome)
    (pred : Option (HttpRsp → Bool)) :
    ∀ (l : List Package) (wait : Bool) (w : World),
    (∀ i u, w.get i u = g u) → w.isCacheResponse = pred →
    (∀ p ∈ l, singleFastFork auth g pred p ≠ .panicked) →
    (fastForkWorker auth l wait w).trace.map (fun x => x.2) =
      l.map (singleFastForkD auth g pred) := by
  intro l
  induction l with
  | nil => intro wait w _ _ _; rfl
  | cons p rest ih =>
    intro wait w hg hp hnp
    have hu := IsFastForkPackage_uniform p auth w g pred hg hp
    rcases h : IsFastForkPackage p auth w with _ | ⟨⟨a, c, e⟩, w1⟩
    · exfalso
      apply hnp p (by simp)
      rw [h] at hu
      rcases h2 : IsFastForkPackage p auth (freshWorld g pred) with _ | v
      · simp [singleFastFork, h2]
      · rw [h2] at hu; simp [dropWorld] at hu
    · have hworld := IsFastForkPackage_world p auth w _ _ h
      have hresp : singleFastForkD auth g pred p = ⟨p.Path, a, c, e⟩ := by
        rw [h] at hu
        rcases h2 : IsFastForkPackage p auth (freshWorld g pred) with _ | ⟨⟨a2, c2, e2⟩, w2⟩
        · rw [h2] at hu; simp [dropWorld] at hu
        · rw [h2] at hu
          simp only [dropWorld, GoResult.value.injEq] at hu
          simp [singleFastForkD, singleFastFork, h2, GoResult.getD, ← hu]
      simp only [fastForkWorker, h, List.map]
      rw [hresp]
      have hg1 : ∀ i u, w1.get i u = g u := fun i u => by rw [hworld.1]; exact hg i u
      have hp1 : w1.isCacheResponse = pred := hworld.2.trans hp
      rw [ih _ w1 hg1 hp1 (fun q hq => hnp q (by simp [hq]))]

/-- Claim C9: over a URL-pure client, for any distribution of the K input
packages among the workers (`ws`, whose concatenation is a permutation of the
input) and any interleaving of the emitted results (`outA`, `outF`, a
permutation of the concatenated worker outputs), both batch evaluators emit
exactly K results, one per input package, each equal to the isolated
single-package evaluation of that package, with K distinct paths whenever the
input paths are distinct — with no guaranteed emission order. -/
theorem claim_C9 (now : Int) (db : String → Except String Int)
    (auth : Option GithubAuth) (g : String → GetOutcome)
    (pred : Option (HttpRsp → Bool)) (pkgs : List Package)
    (ws : List (List Package)) (outA : List ArchiveResponse)
    (outF : List FastForkResponse)
    (hnpA : ∀ p ∈ pkgs, singleArchive now db auth g pred p ≠ .panicked)
    (hnpF : ∀ p ∈ pkgs, singleFastFork auth g pred p ≠ .panicked)
    (hws : ws.flatten.Perm pkgs)
    (houtA : outA.Perm ((ws.map (fun l =>
      (archiveWorker now db auth l true (freshWorld g pred)).trace.map (fun x => x.2))).flatten))
    (houtF : outF.Perm ((ws.map (fun l =>
      (fastForkWorker auth l true (freshWorld g pred)).trace.map (fun x => x.2))).flatten)) :
    (outA.Perm (pkgs.map (singleArchiveD now db auth g pred)) ∧
     outA.length = pkgs.length ∧
     (outA.map (fun r => r.Path)).Perm (pkgs.map (fun p => p.Path)) ∧
     ((pkgs.map (fun p => p.Path)).Nodup → (outA.map (fun r => r.Path)).Nodup)) ∧
    (outF.Perm (pkgs.map (singleFastForkD auth g pred)) ∧
     outF.length = pkgs.length ∧
     (outF.map (fun r => r.Path)).Perm (pkgs.map (fun p => p.Path)) ∧
     ((pkgs.map (fun p => p.Path)).Nodup → (outF.map (fun r => r.Path)).Nodup)) := by
  have hmem : ∀ l ∈ ws, ∀ p ∈ l, p ∈ pkgs := by
    intro l hl p hp
    exact hws.mem_iff.mp (List.mem_flatten.mpr ⟨l, hl, hp⟩)
  have hA : outA.Perm (pkgs.map (singleArchiveD now db auth g pred)) := by
    have hmapA : (ws.map (fun l =>
        (archiveWorker now db auth l true (freshWorld g pred)).trace.map (fun x => x.2))) =
        ws.map (fun l => l.map (singleArchiveD now db auth g pred)) := by
      apply List.map_congr_left
      intro l hl
      exact archiveWorker_traceMap now db auth g pred l true (freshWorld g pred)
        (fun i u => rfl) rfl (fun p hp => hnpA p (hmem l hl p hp))
    refine houtA.trans ?_
    rw [hmapA, ← List.map_flatten]
    exact hws.map _
  have hF : outF.Perm (pkgs.map (singleFastForkD auth g pred)) := by
    have hmapF : (ws.map (fun l =>
        (fastForkWorker auth l true (freshWorld g pred)).trace.map (fun x => x.2))) =
        ws.map (fun l => l.map (singleFastForkD auth g pred)) := by
      apply List.map_congr_left
      intro l hl
      exact fastForkWorker_traceMap auth g pred l true (freshWorld g pred)
        (fun i u => rfl) rfl (fun p hp => hnpF p (hmem l hl p hp))
    refine houtF.trans ?_
    rw [hmapF, ← List.map_flatten]
    exact hws.map _
  have hApaths : (outA.map (fun r => r.Path)).Perm (pkgs.map (fun p => p.Path)) := by
    have := hA.map (fun r => r.Path)
    rw [List.map_map] at this
    refine this.trans ?_
    rw [show ((fun r : ArchiveResponse => r.Path) ∘ singleArchiveD now db auth g pred) =
        fun p => (singleArchiveD now db auth g pred p).Path from rfl]
    exact List.Perm.of_eq (List.map_congr_left
      (fun p _ => singleArchiveD_Path now db auth g pred p))
  have hFpaths : (outF.map (fun r => r.Path)).Perm (pkgs.map (fun p => p.Path)) := by
    have := hF.map (fun r => r.Path)
    rw [List.map_map] at this
    refine this.trans ?_
    rw [show ((fun r : FastForkResponse => r.Path) ∘ singleFastForkD auth g pred) =
        fun p => (singleFastForkD auth g pred p).Path from rfl]
    exact List.Perm.of_eq (List.map_congr_left
      (fun p _ => singleFastForkD_Path auth g pred p))
  refine ⟨⟨hA, ?_, hApaths, fun hnd => hApaths.nodup_iff.mpr hnd⟩,
          ⟨hF, ?_, hFpaths, fun hnd => hFpaths.nodup_iff.mpr hnd⟩⟩
  · rw [hA.length_eq, List.length_map]
  · rw [hF.length_eq, List.length_map]

/-- Witness for C9: two packages, both resolved by the importer-count short
circuit, distributed over four workers (two of them idle), with the output
stream taken in emission order. -/
theorem claim_C9_witness :
    let db : String → Except String Int := fun _ => .ok 1
    let g : String → GetOutcome := fun _ => .failure "no network"
    let pkgs : List Package := [⟨"github.com/a/b"⟩, ⟨"github.com/c/d"⟩]
    let ws : List (List Package) := [[⟨"github.com/a/b"⟩], [⟨"github.com/c/d"⟩], [], []]
    let outA : List ArchiveResponse :=
      [⟨"github.com/a/b", false, true, none⟩, ⟨"github.com/c/d", false, true, none⟩]
    let outF : List FastForkResponse :=
      [⟨"github.com/a/b", false, false,
        some (NewError "github.com/a/b" .ErrorCodeGithubFetch (some "no network"))⟩,
       ⟨"github.com/c/d", false, false,
        some (NewError "github.com/c/d" .ErrorCodeGithubFetch (some "no network"))⟩]
    (∀ p ∈ pkgs, singleArchive 0 db none g none p ≠ .panicked) ∧
    (∀ p ∈ pkgs, singleFastFork none g none p ≠ .panicked) ∧
    outA.Perm (pkgs.map (singleArchiveD 0 db none g none)) ∧
    outA.length = pkgs.length ∧
    (outA.map (fun r => r.Path)).Nodup ∧
    outF.Perm (pkgs.map (singleFastForkD none g none)) ∧
    outF.length = pkgs.length ∧
    (outF.map (fun r => r.Path)).Nodup := by
  intro db g pkgs ws outA outF
  have h := claim_C9 0 db none g none pkgs ws outA outF
    (by decide) (by decide) (List.Perm.refl _) (List.Perm.refl _) (List.Perm.refl _)
  exact ⟨by decide, by decide, h.1.1, h.1.2.1, h.1.2.2.2 (by decide),
         h.2.1, h.2.2.1, h.2.2.2.2 (by decide)⟩

end Gddoexp
